import Mathlib

/-!
Verification development for the protocol_zero self-healing agent.

This file gives a shallow embedding, in Lean 4, of the pure core of the
self-healing orchestrator and its repository-manager helpers:

* the scoring function `calculateScore` (orchestrator, `calculateScore`);
* the branch-name generator `getHealingBranchName` (repo-manager);
* the GitHub URL parser `parseGitHubUrl` (repo-manager);
* the sandbox cleanup `cleanupSandbox` modelled over an abstract file system;
* the fork and pull-request API wrappers `forkRepo` / `createPullRequest`,
  modelled over an environment describing the HTTP responses;
* the healing loop `runHealingLoop` (the MAX_ATTEMPTS = 3 orchestrator
  variant with the session timeout and the `partial_success` terminal
  status), modelled as a pure function of an environment that supplies the
  outcomes of the test runs, AI scans, AI fixes and git introspection.

JavaScript numbers appearing in score arithmetic are modelled as `ℚ`
(elapsed seconds) and `ℤ` (scores); `Math.round` is `⌊x + 1/2⌋`, which is
its rounding mode (half toward +∞).  Strings are modelled as `String` or,
where character-level matching matters, as `List Char`.
-/

namespace ProtocolZero

/-! ## Scoring: data model -/

/-- Model of the TS `HealingBug` record (fields used by the orchestrator). -/
structure HealingBug where
  id : Nat
  category : String
  filePath : String
  line : Nat
  message : String
  severity : String
  fixed : Bool
  fixedAtAttempt : Option Nat
deriving DecidableEq, Repr

/-- Model of the TS `HealingScore` record returned by `calculateScore`. -/
structure HealingScore where
  totalBugs : Nat
  bugsFixed : Nat
  testsPassed : Bool
  attempts : Nat
  totalCommits : Nat
  timeSeconds : ℤ
  speedBonus : ℤ
  commitPenalty : ℤ
  finalScore : ℤ
deriving DecidableEq, Repr

/-- JavaScript `Math.round`: round half toward positive infinity. -/
def jsRound (q : ℚ) : ℤ := ⌊q + 1 / 2⌋

/-- Constant `SPEED_BONUS_THRESHOLD_SEC = 300` from the orchestrator. -/
def SPEED_BONUS_THRESHOLD_SEC : ℚ := 300

/-- Constant `MAX_COMMITS_PENALTY_THRESHOLD = 20` from the orchestrator. -/
def MAX_COMMITS_PENALTY_THRESHOLD : Nat := 20

/-- Embedding of the orchestrator's `calculateScore(bugs, testsPassed,
attempts, totalCommits, timeSeconds)`.  Both orchestrator variants in the
source contain this function verbatim. -/
def calculateScore (bugs : List HealingBug) (testsPassed : Bool)
    (attempts : Nat) (totalCommits : Nat) (timeSeconds : ℚ) : HealingScore :=
  let totalBugs := bugs.length
  let bugsFixed := (bugs.filter (fun b => b.fixed)).length
  let baseScore0 : ℤ :=
    if totalBugs > 0 then jsRound ((bugsFixed : ℚ) / (totalBugs : ℚ) * 60) else 0
  let baseScore1 : ℤ := baseScore0 + (if testsPassed then 20 else 0)
  let baseScore2 : ℤ :=
    baseScore1 + (if attempts ≤ 2 then 10 else if attempts ≤ 3 then 5 else 0)
  let speedBonus : ℤ := if timeSeconds < SPEED_BONUS_THRESHOLD_SEC then 10 else 0
  let commitPenalty : ℤ :=
    if totalCommits > MAX_COMMITS_PENALTY_THRESHOLD then
      (totalCommits : ℤ) - (MAX_COMMITS_PENALTY_THRESHOLD : ℤ)
    else 0
  { totalBugs := totalBugs
    bugsFixed := bugsFixed
    testsPassed := testsPassed
    attempts := attempts
    totalCommits := totalCommits
    timeSeconds := jsRound timeSeconds
    speedBonus := speedBonus
    commitPenalty := commitPenalty
    finalScore := max 0 (min 100 (baseScore2 + speedBonus - commitPenalty)) }

/-! ## Scoring: the specification-side formula (for the refinement claim C1)

These definitions follow the wording of the specification sentence
"base = round(bugsFixed/totalBugs * 60) (0 if totalBugs=0) + 20 if
testsPassed + 10 if attempts<=2 else 5 if attempts<=3 else 0;
speedBonus = 10 if elapsedSeconds < 300 else 0;
commitPenalty = max(0, totalCommits - 20);
final = clamp(base + speedBonus - commitPenalty, 0, 100)". -/

/-- Specification-side base term, written from the spec's words. -/
def specBase (bugsFixed totalBugs : Nat) (testsPassed : Bool) (attempts : Nat) : ℤ :=
  (if totalBugs = 0 then 0 else jsRound ((bugsFixed : ℚ) / (totalBugs : ℚ) * 60))
  + (if testsPassed then 20 else 0)
  + (if attempts ≤ 2 then 10 else if attempts ≤ 3 then 5 else 0)

/-- Specification-side speed bonus, written from the spec's words. -/
def specSpeedBonus (elapsedSeconds : ℚ) : ℤ :=
  if elapsedSeconds < 300 then 10 else 0

/-- Specification-side commit penalty, written from the spec's words. -/
def specCommitPenalty (totalCommits : Nat) : ℤ :=
  max 0 ((totalCommits : ℤ) - 20)

/-- Specification-side final score `clamp(base + speedBonus - commitPenalty, 0, 100)`. -/
def specFinalScore (bugsFixed totalBugs : Nat) (testsPassed : Bool)
    (attempts : Nat) (totalCommits : Nat) (elapsedSeconds : ℚ) : ℤ :=
  max 0 (min 100
    (specBase bugsFixed totalBugs testsPassed attempts
      + specSpeedBonus elapsedSeconds - specCommitPenalty totalCommits))

/-- Number of bugs in a list marked `fixed`. -/
def fixedCount (bugs : List HealingBug) : Nat :=
  (bugs.filter (fun b => b.fixed)).length

/-! ## Repo manager: branch naming

Embedding of `getHealingBranchName(teamName, leaderName)`:
`toUpperCase()`, then `replace(/\s+/g, "_")` (each maximal whitespace run
becomes one underscore), then `replace(/[^A-Z0-9_]/g, "")`, then the two
parts are joined and suffixed with `_AI_Fix`. -/

/-- Characters matched by the JavaScript regex class `\s` (whitespace).
The properties proved below do not depend on the exact extent of this set. -/
def jsWhitespaceChar (c : Char) : Bool :=
  decide (c = ' ' ∨ c = '\t' ∨ c = '\n' ∨ c = '\r' ∨ c = '\x0b' ∨ c = '\x0c' ∨
    c = ' ' ∨ c = ' ' ∨ (' ' ≤ c ∧ c ≤ ' ') ∨
    c = ' ' ∨ c = ' ' ∨ c = ' ' ∨ c = ' ' ∨ c = '　' ∨
    c = '﻿')

/-- Replace every maximal run of whitespace by a single `'_'`, as the
regex replacement `replace(/\s+/g, "_")` does.  The boolean argument
records whether the previous character was part of a whitespace run. -/
def collapseWsAux : Bool → List Char → List Char
  | _, [] => []
  | prevWs, c :: rest =>
    if jsWhitespaceChar c then
      if prevWs then collapseWsAux true rest
      else '_' :: collapseWsAux true rest
    else c :: collapseWsAux false rest

/-- Characters kept by the strip `replace(/[^A-Z0-9_]/g, "")`. -/
def branchAllowedChar (c : Char) : Bool :=
  decide (('A' ≤ c ∧ c ≤ 'Z') ∨ ('0' ≤ c ∧ c ≤ '9') ∨ c = '_')

/-- Normalization applied to the team and to the leader name:
upper-case (the inputs of interest are ASCII, where `Char.toUpper` agrees
with JavaScript `toUpperCase`), collapse whitespace runs to `'_'`, strip
everything outside `[A-Z0-9_]`. -/
def normalizeNamePart (s : String) : List Char :=
  (collapseWsAux false (s.toList.map Char.toUpper)).filter branchAllowedChar

/-- Constant `BRANCH_SUFFIX = "AI_Fix"` from the repo manager. -/
def BRANCH_SUFFIX : String := "AI_Fix"

/-- Embedding of `getHealingBranchName(teamName, leaderName)` from
the repo manager. -/
def getHealingBranchName (teamName leaderName : String) : String :=
  String.mk (normalizeNamePart teamName ++ '_' :: normalizeNamePart leaderName
    ++ ('_' :: BRANCH_SUFFIX.toList))

/-! ## Repo manager: GitHub URL parsing

`parseGitHubUrl(url)` matches, in order, the two regexes

  `/github\.com\/([^/]+)\/([^/.]+?)(?:\.git)?$/`
  `/github\.com\/([^/]+)\/([^/]+?)\/?$/`

against the url (`String.prototype.match`, i.e. an unanchored search that
tries start positions left to right) and returns the two capture groups of
the first regex that matches; if neither matches anywhere it throws
`Invalid GitHub URL` (modelled as `none`). -/

/-- Consume an expected literal from the front of a character list:
`dropLit lit l = some rest` iff `l = lit ++ rest`. -/
def dropLit : List Char → List Char → Option (List Char)
  | [], l => some l
  | _ :: _, [] => none
  | p :: ps, c :: cs => if p = c then dropLit ps cs else none

/-- The literal part `github.com/` of both regexes. -/
def ghLit : List Char := ['g', 'i', 't', 'h', 'u', 'b', '.', 'c', 'o', 'm', '/']

/-- The character class `[^/]` of the owner capture. -/
def notSlash (c : Char) : Bool := ¬ c = '/'

/-- Match `([^/]+)\/` at the front: the owner capture is the maximal
nonempty run of non-`'/'` characters, which must be followed by `'/'`.
Returns the capture and the rest after the slash. -/
def matchOwner (l : List Char) : Option (List Char × List Char) :=
  match l.dropWhile notSlash with
  | '/' :: tail =>
    if (l.takeWhile notSlash).isEmpty then none
    else some (l.takeWhile notSlash, tail)
  | _ => none

/-- When `t` ends with `.git`, strip that suffix. -/
def dropDotGit (t : List Char) : Option (List Char) :=
  if 4 ≤ t.length ∧ t.drop (t.length - 4) = ['.', 'g', 'i', 't'] then
    some (t.take (t.length - 4))
  else none

/-- When `t` ends with `'/'`, strip that final slash. -/
def dropTrailSlash (t : List Char) : Option (List Char) :=
  if t.getLast? = some '/' then some t.dropLast else none

/-- Match `([^/.]+?)(?:\.git)?$` against the whole remaining text `t`:
either `t` itself is a nonempty run with no `'/'` or `'.'`, or `t` is such
a run followed by the literal `.git`.  (The two cases are disjoint, so the
lazy-quantifier preference order does not matter for the result.) -/
def repoTail1 (t : List Char) : Option (List Char) :=
  if ¬ t.isEmpty ∧ t.all (fun c => ¬ c = '/' ∧ ¬ c = '.') then some t
  else
    match dropDotGit t with
    | some pre =>
      if ¬ pre.isEmpty ∧ pre.all (fun c => ¬ c = '/' ∧ ¬ c = '.') then some pre
      else none
    | none => none

/-- Match `([^/]+?)\/?$` against the whole remaining text `t`: either `t`
is a nonempty run with no `'/'`, or such a run followed by one final `'/'`. -/
def repoTail2 (t : List Char) : Option (List Char) :=
  if ¬ t.isEmpty ∧ t.all (fun c => ¬ c = '/') then some t
  else
    match dropTrailSlash t with
    | some pre =>
      if ¬ pre.isEmpty ∧ pre.all (fun c => ¬ c = '/') then some pre
      else none
    | none => none

/-- Try one regex (given by its repo-tail matcher) at one start position:
the literal `github.com/`, then the owner capture, then the repo tail,
which must extend to the end of the string. -/
def tryPatternAt (repoTail : List Char → Option (List Char)) (l : List Char) :
    Option (List Char × List Char) :=
  match dropLit ghLit l with
  | some rest =>
    match matchOwner rest with
    | some (owner, tail) =>
      match repoTail tail with
      | some repo => some (owner, repo)
      | none => none
    | none => none
  | none => none

/-- Unanchored regex search: try the pattern at every start position from
left to right, returning the first success (the semantics of
`String.prototype.match` for these end-anchored patterns). -/
def scanMatch (repoTail : List Char → Option (List Char)) :
    List Char → Option (List Char × List Char)
  | [] => none
  | c :: rest =>
    match tryPatternAt repoTail (c :: rest) with
    | some r => some r
    | none => scanMatch repoTail rest

/-- Embedding of `parseGitHubUrl(url)` from the repo manager: first regex
first, over the whole string; then the second; `none` models the thrown
`Invalid GitHub URL` error. -/
def parseGitHubUrl (url : List Char) : Option (List Char × List Char) :=
  match scanMatch repoTail1 url with
  | some r => some r
  | none => scanMatch repoTail2 url

/-! ## Repo manager: sandbox cleanup

The file system is modelled as the list of existing directory paths.
`rmSync(dir, {recursive: true, force: true})` removes the directory tree;
`existsSync` is membership. -/

/-- Model of a file system: the collection of existing directories. -/
abbrev FileSystem := List String

/-- Constant `SANDBOX_BASE` (the POSIX branch of the definition). -/
def SANDBOX_BASE : String := "/tmp/self-healing"

/-- Embedding of `getSandboxDir(sessionId) = path.join(SANDBOX_BASE, sessionId)`. -/
def getSandboxDir (sessionId : String) : String :=
  SANDBOX_BASE ++ "/" ++ sessionId

/-- Model of `existsSync` on a directory. -/
def existsSyncDir (fs : FileSystem) (dir : String) : Bool :=
  fs.contains dir

/-- Model of `rmSync(dir, {recursive: true, force: true})`. -/
def rmSyncRecursiveForce (fs : FileSystem) (dir : String) : FileSystem :=
  fs.filter (fun d => ¬ d = dir)

/-- Embedding of `cleanupSandbox(sessionId)` from the repo manager:
remove the sandbox directory if it exists, otherwise do nothing (and in
particular do not fail). -/
def cleanupSandbox (fs : FileSystem) (sessionId : String) : FileSystem :=
  if existsSyncDir fs (getSandboxDir sessionId) then
    rmSyncRecursiveForce fs (getSandboxDir sessionId)
  else fs

/-- Observable outcome of the orchestrator's `try`/`catch` body, as seen by
its `finally` block: the file system at exit, the value of the `repoDir`
variable (`""` until `cloneRepo` returned, i.e. until a sandbox was
created and populated), and whether the body terminated by throwing (the
`catch` block swallows the exception before `finally` runs). -/
structure LoopBodyExit where
  fs : FileSystem
  repoDir : String
  threw : Bool

/-- Embedding of the orchestrator's `finally` block: when `repoDir` was
set, `cleanupSandbox(sessionId)` runs (its own errors are swallowed);
otherwise nothing is removed.  This runs on both the normal and the
throwing path. -/
def sessionFinallyCleanup (sessionId : String) (exitState : LoopBodyExit) :
    FileSystem :=
  if exitState.repoDir = "" then exitState.fs
  else cleanupSandbox exitState.fs sessionId

/-! ## Substring search (for the `includes` checks) -/

/-- Boolean test that `p` is an initial segment of the second list. -/
def startsWithLit : List Char → List Char → Bool
  | [], _ => true
  | _ :: _, [] => false
  | p :: ps, c :: cs => p = c && startsWithLit ps cs

/-- Model of JavaScript `String.prototype.includes`: the needle occurs at
some position of the haystack. -/
def containsSub (needle : List Char) : List Char → Bool
  | [] => needle.isEmpty
  | c :: rest => startsWithLit needle (c :: rest) || containsSub needle rest

/-! ## Repo manager: forkRepo

The HTTP layer is modelled by an environment: for each fork attempt the
`fetch` either yields a response (status plus the fields of the parsed
body that the code reads) or rejects with an error message.  Response
bodies are modelled pre-parsed; a body that failed to parse is the
`none` case of each field (the code falls back over it with `||` /
`.catch(() => ({}))`).  `waitForFork` only polls and at worst logs a
warning, so it does not affect the returned value and is not modelled. -/

/-- Fields of an HTTP response that `forkRepo` reads. -/
structure GitHubForkResponse where
  status : Nat
  message : Option String
  statusText : String
  ownerLogin : Option String
  fullName : Option String
  name : Option String
deriving DecidableEq, Repr

/-- Whether `response.ok` holds (status in the range 200–299). -/
def respOk (status : Nat) : Bool :=
  decide (200 ≤ status ∧ status < 300)

/-- Environment for `forkRepo`: whether `GITHUB_BOT_TOKEN` is set, and the
outcome of the fork `fetch` on each attempt (`.inr msg` models a rejected
fetch — a network error carrying `msg`). -/
structure ForkEnv where
  tokenPresent : Bool
  fetchFork : Nat → Sum GitHubForkResponse String

/-- Model of the TS `ForkResult` record. -/
structure ForkResult where
  forkOwner : String
  forkRepo : String
  forkUrl : String
  success : Bool
  error : Option String
deriving DecidableEq, Repr

/-- Message of the error thrown by `getBotToken()` when the environment
variable is missing. -/
def tokenMissingMessage : String :=
  "GITHUB_BOT_TOKEN is not set. Add it to your .env file. " ++
  "Create a classic PAT at: GitHub → Settings → Developer settings → Personal Access Tokens. " ++
  "Required scopes: 'repo' for full repository access."

/-- Message of the error thrown on a non-ok, non-202 fork response
(the 403 branch carries extra guidance). -/
def forkErrorMessage (r : GitHubForkResponse) : String :=
  let errorMsg := r.message.getD r.statusText
  if r.status = 403 then
    "Fork failed (403): " ++ errorMsg ++
      ". GitHub token may lack 'public_repo' or 'repo' scope. " ++
      "Go to GitHub Settings → Developer settings → Personal Access Tokens to update."
  else
    "Fork failed (" ++ toString r.status ++ "): " ++ errorMsg

/-- The failure `ForkResult` built in the `catch` block: empty fields and
the caught error's message. -/
def forkFailure (msg : String) : ForkResult :=
  { forkOwner := "", forkRepo := "", forkUrl := "", success := false,
    error := some msg }

/-- The success `ForkResult`: `forkData.owner?.login ||
forkData.full_name?.split("/")[0]` and `forkData.name || repo` (JavaScript
`undefined` is collapsed to `""`). -/
def forkSuccess (repo : String) (r : GitHubForkResponse) : ForkResult :=
  let forkOwner :=
    match r.ownerLogin with
    | some s => s
    | none => (r.fullName.getD "").takeWhile (fun c => ¬ c = '/')
  let forkRepoName := r.name.getD repo
  { forkOwner := forkOwner, forkRepo := forkRepoName,
    forkUrl := "https://github.com/" ++ forkOwner ++ "/" ++ forkRepoName,
    success := true, error := none }

/-- One iteration of the fork retry loop: `.inl` is a returned result,
`.inr msg` is an exception caught by the surrounding `catch`. -/
def forkAttemptOutcome (env : ForkEnv) (repo : String) (attempt : Nat) :
    Sum ForkResult String :=
  match env.fetchFork attempt with
  | .inr msg => .inr msg
  | .inl r =>
    if ¬ respOk r.status ∧ ¬ r.status = 202 then .inr (forkErrorMessage r)
    else .inl (forkSuccess repo r)

/-- Embedding of `forkRepo(owner, repo)` (the variant with
`maxForkAttempts = 2`): `getBotToken()` may throw before the `try`
(modelled as `Except.error`); inside the loop every failure is caught,
retried once, and finally surfaced as a `success: false` result. -/
def forkRepo (env : ForkEnv) (owner repo : String) : Except String ForkResult :=
  if ¬ env.tokenPresent then .error tokenMissingMessage
  else
    .ok (match forkAttemptOutcome env repo 1 with
      | .inl res => res
      | .inr _ =>
        match forkAttemptOutcome env repo 2 with
        | .inl res => res
        | .inr msg => forkFailure msg)

/-! ## Repo manager: createPullRequest -/

/-- Fields of an HTTP response that `createPullRequest` reads: the error
body's `message` and `errors?.[0]?.message`, and the success body's
`number` and `html_url`. -/
structure PRResponse where
  status : Nat
  message : Option String
  statusText : String
  errorsFirstMessage : Option String
  prNumber : Nat
  prUrl : String
deriving DecidableEq, Repr

/-- Environment for `createPullRequest`: the create-PR `fetch` outcome per
attempt (`.inr msg` = rejected fetch), and the outcome of the
search-existing-PRs call: `none` when that call failed or was non-ok,
`some prs` for a parsed list of `(number, html_url)` pairs. -/
structure PREnv where
  createResp : Nat → Sum PRResponse String
  searchResult : Option (List (Nat × String))

/-- Model of the TS `PullRequestResult` record. -/
structure PullRequestResult where
  success : Bool
  prNumber : Option Nat
  prUrl : Option String
  error : Option String
deriving DecidableEq, Repr

/-- The literal the 422 handler looks for with `includes`. -/
def prAlreadyExistsLit : List Char :=
  "pull request already exists".toList

/-- The 422 guard: `response.status === 422 &&
errorData.errors?.[0]?.message?.includes("pull request already exists")`. -/
def prAlreadyExists (r : PRResponse) : Bool :=
  r.status = 422 &&
    (match r.errorsFirstMessage with
     | some m => containsSub prAlreadyExistsLit m.toList
     | none => false)

/-- Resolution of an already-existing PR: look the PR up by head; if the
search succeeds and is nonempty return its number and url, otherwise fall
back to the repository's pulls page. -/
def resolveExistingPR (env : PREnv) (originalOwner originalRepo : String) :
    PullRequestResult :=
  match env.searchResult with
  | some (p :: _) =>
    { success := true, prNumber := some p.1, prUrl := some p.2, error := none }
  | _ =>
    { success := true, prNumber := none,
      prUrl := some ("https://github.com/" ++ originalOwner ++ "/" ++
        originalRepo ++ "/pulls"),
      error := none }

/-- Message of the error thrown on other non-ok create-PR responses. -/
def prApiErrorMessage (r : PRResponse) : String :=
  "GitHub API error " ++ toString r.status ++ ": " ++ (r.message.getD r.statusText)

/-- One iteration of the PR retry loop: `.inl` is a returned result,
`.inr msg` an exception caught by the surrounding `catch`. -/
def prAttemptOutcome (env : PREnv) (originalOwner originalRepo : String)
    (attempt : Nat) : Sum PullRequestResult String :=
  match env.createResp attempt with
  | .inr msg => .inr msg
  | .inl r =>
    if respOk r.status then
      .inl { success := true, prNumber := some r.prNumber,
             prUrl := some r.prUrl, error := none }
    else if prAlreadyExists r then
      .inl (resolveExistingPR env originalOwner originalRepo)
    else .inr (prApiErrorMessage r)

/-- Embedding of `createPullRequest` (the variant with `maxRetries = 2`):
a failed first attempt (caught exception or non-ok non-already-exists
response) is retried once; a second failure yields `success: false` with
the caught message. -/
def createPullRequest (env : PREnv) (originalOwner originalRepo : String) :
    PullRequestResult :=
  match prAttemptOutcome env originalOwner originalRepo 1 with
  | .inl res => res
  | .inr _ =>
    match prAttemptOutcome env originalOwner originalRepo 2 with
    | .inl res => res
    | .inr msg =>
      { success := false, prNumber := none, prUrl := none, error := some msg }

/-! ## Orchestrator: the healing loop

Embedding of `runHealingLoop` — the variant with `MAX_ATTEMPTS = 3`, the
five-minute session timeout and the `partial_success` terminal status.
The effectful collaborators (test runner, AI scanner, AI fixer, git
introspection, wall clock) are supplied by an environment; Firestore
updates, progress events, commits, pushes and attestations have no
bearing on the loop's control flow or returned state and are not carried
in the model (the commit/push step can only log). -/

/-- Constant `MAX_ATTEMPTS = 3` of this orchestrator variant. -/
def MAX_ATTEMPTS : Nat := 3

/-- Terminal (and only modelled) session statuses. -/
inductive HealingStatus where
  | completed
  | partialSuccess
  | failed
deriving DecidableEq, Repr

/-- One parsed test error (the fields the orchestrator reads).  `synthId`
stands for the `uuidv4()` drawn when the error is turned into a synthetic
bug; randomness is supplied by the environment. -/
structure TestError where
  filePath : String
  line : Nat
  etype : String
  message : String
  synthId : Nat
deriving DecidableEq, Repr

/-- Result of one `runTests` call: the verdict and the parsed errors. -/
structure TestRun where
  passed : Bool
  errors : List TestError
deriving DecidableEq, Repr

/-- One entry of `fixResult.results`. -/
structure FixOutcome where
  bugId : Nat
  applied : Bool
deriving DecidableEq, Repr

/-- Result of one `fixAllBugs` call: the per-bug outcomes and the
aggregate `bugsFixed` count recorded in the attempt. -/
structure FixRun where
  results : List FixOutcome
  bugsFixed : Nat
deriving DecidableEq, Repr

/-- Environment of one healing session: outcomes of the effectful calls,
indexed by attempt number where relevant.  `timedOut attempt k` is the
value of `isTimedOut(startTime)` at the k-th timeout checkpoint (0: top of
the iteration, 1: before the AI scan, 2: before the AI fix, 3: before the
push) of that attempt.  `commitCountAt`/`elapsedAt` are `getCommitCount` /
the elapsed seconds when a score is computed during that attempt (index 0:
at final verification). -/
structure OrchestratorEnv where
  timedOut : Nat → Nat → Bool
  testResult : Nat → TestRun
  scanResult : Nat → List HealingBug
  fixResult : Nat → FixRun
  commitCountAt : Nat → Nat
  elapsedAt : Nat → ℚ
  finalTestPassed : Bool

/-- Whether two bugs carry the same (filePath, line) location. -/
def locClash (a b : HealingBug) : Prop :=
  a.filePath = b.filePath ∧ a.line = b.line

instance (a b : HealingBug) : Decidable (locClash a b) := by
  unfold locClash; infer_instance

/-- One record of the session's attempt history (the fields the claims
mention; test output, commit sha and timing are dropped). -/
structure HealingAttempt where
  attempt : Nat
  passed : Bool
  bugsFound : Nat
  bugsFixed : Nat
deriving DecidableEq, Repr

/-- Result of a modelled session: terminal status, final accumulated bug
list and attempt history, the computed score, whether `createPullRequest`
was attempted, and whether (and at which attempt) the loop returned from
inside its body rather than reaching final verification. -/
structure RunOutcome where
  status : HealingStatus
  bugs : List HealingBug
  attempts : List HealingAttempt
  score : HealingScore
  prAttempted : Bool
  exitedInLoop : Bool
  exitAttempt : Nat
deriving Repr

/-- Embedding of the scan-integration loop of the orchestrator:

    for (const bug of bugs) {
      const alreadyFixed = allBugs.find(b => b.filePath === bug.filePath
        && b.line === bug.line && b.fixed);
      if (alreadyFixed) continue;
      const alreadyTracked = allBugs.find(b => b.filePath === bug.filePath
        && b.line === bug.line);
      if (!alreadyTracked) allBugs.push(bug);
      genuinelyNewBugs.push(bug);
    }

Returns the updated `allBugs` and `genuinelyNewBugs`. -/
def integrateScan : List HealingBug → List HealingBug →
    List HealingBug × List HealingBug
  | [], allBugs => (allBugs, [])
  | bug :: rest, allBugs =>
    if allBugs.any (fun b => decide (locClash b bug) && b.fixed) then
      integrateScan rest allBugs
    else if allBugs.any (fun b => decide (locClash b bug)) then
      ((integrateScan rest allBugs).1, bug :: (integrateScan rest allBugs).2)
    else
      ((integrateScan rest (allBugs ++ [bug])).1,
        bug :: (integrateScan rest (allBugs ++ [bug])).2)

/-- The synthetic bug built from a raw test error when the scanner found
nothing new (`severity: "high"`, `fixed: false`, fresh uuid). -/
def synthBug (e : TestError) : HealingBug :=
  { id := e.synthId
    category := e.etype
    filePath := e.filePath
    line := e.line
    message := e.etype ++ " error in " ++ e.filePath ++ " line " ++
      toString e.line ++ ": " ++ e.message
    severity := "high"
    fixed := false
    fixedAtAttempt := none }

/-- Embedding of the push loop over the synthesized bugs:

    for (const bug of bugsToFix) {
      if (!allBugs.find(b => b.filePath === bug.filePath
        && b.line === bug.line)) allBugs.push(bug);
    }
-/
def addNewBugs : List HealingBug → List HealingBug → List HealingBug
  | [], allBugs => allBugs
  | bug :: rest, allBugs =>
    addNewBugs rest
      (if allBugs.any (fun b => decide (locClash b bug)) then allBugs
       else allBugs ++ [bug])

/-- Set `fixed`/`fixedAtAttempt` on the first bug with the given id
(`allBugs.find(b => b.id === result.bugId)` then in-place mutation). -/
def setFixedFirst (bugId attempt : Nat) : List HealingBug → List HealingBug
  | [] => []
  | b :: rest =>
    if b.id = bugId then
      { b with fixed := true, fixedAtAttempt := some attempt } :: rest
    else b :: setFixedFirst bugId attempt rest

/-- Embedding of the mark-fixed loop over `fixResult.results`. -/
def markFixed (attempt : Nat) (results : List FixOutcome)
    (allBugs : List HealingBug) : List HealingBug :=
  results.foldl
    (fun acc r => if r.applied then setFixedFirst r.bugId attempt acc else acc)
    allBugs

/-- Outcome of the in-loop success paths (tests passed, or no actionable
bugs remained): status `completed`, a `passed` attempt record appended,
score computed with `testsPassed = true` and the current attempt number,
and a PR attempted. -/
def completedInLoop (env : OrchestratorEnv) (attempt : Nat)
    (allBugs : List HealingBug) (attempts : List HealingAttempt)
    (recordedFixed : Nat) : RunOutcome :=
  let score := calculateScore allBugs true attempt (env.commitCountAt attempt)
    (env.elapsedAt attempt)
  { status := HealingStatus.completed
    bugs := allBugs
    attempts := attempts ++
      [{ attempt := attempt, passed := true, bugsFound := 0,
         bugsFixed := recordedFixed }]
    score := score
    prAttempted := true
    exitedInLoop := true
    exitAttempt := attempt }

/-- Embedding of the section after the loop (`MAX RETRIES REACHED — Run
final test`): one last test run decides between `completed` (PR
attempted), `partial_success` (some bug fixed; PR attempted) and `failed`
(no PR). -/
def finalVerification (env : OrchestratorEnv) (allBugs : List HealingBug)
    (attempts : List HealingAttempt) : RunOutcome :=
  let score := calculateScore allBugs env.finalTestPassed MAX_ATTEMPTS
    (env.commitCountAt 0) (env.elapsedAt 0)
  if env.finalTestPassed then
    { status := HealingStatus.completed, bugs := allBugs, attempts := attempts,
      score := score, prAttempted := true, exitedInLoop := false,
      exitAttempt := 0 }
  else if score.bugsFixed > 0 then
    { status := HealingStatus.partialSuccess, bugs := allBugs,
      attempts := attempts, score := score, prAttempted := true,
      exitedInLoop := false, exitAttempt := 0 }
  else
    { status := HealingStatus.failed, bugs := allBugs, attempts := attempts,
      score := score, prAttempted := false, exitedInLoop := false,
      exitAttempt := 0 }

/-- The body of the `for (let attempt = 1; attempt <= MAX_ATTEMPTS;
attempt++)` loop, with `fuel` many iterations left.  Every `break`
goes to `finalVerification`; every `return` yields an in-loop outcome. -/
def runAttempts (env : OrchestratorEnv) :
    Nat → Nat → List HealingBug → List HealingAttempt → RunOutcome
  | 0, _, allBugs, attempts => finalVerification env allBugs attempts
  | fuel + 1, attempt, allBugs, attempts =>
    if env.timedOut attempt 0 then finalVerification env allBugs attempts
    else
      let tr := env.testResult attempt
      if tr.passed then completedInLoop env attempt allBugs attempts 0
      else if env.timedOut attempt 1 then finalVerification env allBugs attempts
      else
        let scanned := integrateScan (env.scanResult attempt) allBugs
        let allBugs1 := scanned.1
        let actionable := scanned.2
        let step :=
          if actionable.isEmpty ∧ ¬ tr.errors.isEmpty then
            let synths :=
              (tr.errors.filter (fun e =>
                ¬ allBugs1.any (fun b =>
                  decide (b.filePath = e.filePath ∧ b.line = e.line) &&
                    b.fixed))).map synthBug
            (addNewBugs synths allBugs1, synths)
          else (allBugs1, actionable)
        let allBugs2 := step.1
        let bugsToFix := step.2
        if bugsToFix.isEmpty then
          completedInLoop env attempt allBugs2 attempts (fixedCount allBugs2)
        else if env.timedOut attempt 2 then
          finalVerification env allBugs2 attempts
        else
          let fr := env.fixResult attempt
          let allBugs3 := markFixed attempt fr.results allBugs2
          if env.timedOut attempt 3 then finalVerification env allBugs3 attempts
          else
            runAttempts env fuel (attempt + 1) allBugs3
              (attempts ++
                [{ attempt := attempt, passed := false,
                   bugsFound := (env.scanResult attempt).length,
                   bugsFixed := fr.bugsFixed }])

/-- Embedding of the healing loop of `runHealingLoop`, from the top of the
attempt loop (the session's fork/clone/branch setup succeeded; `allBugs`
and `attempts` start empty). -/
def runHealingLoop (env : OrchestratorEnv) : RunOutcome :=
  runAttempts env MAX_ATTEMPTS 1 [] []

/-- No two bugs of the list share a (filePath, line) location. -/
def NodupLoc (l : List HealingBug) : Prop :=
  l.Pairwise (fun a b => ¬ locClash a b)

instance (l : List HealingBug) : Decidable (NodupLoc l) := by
  unfold NodupLoc; infer_instance

/-! ## Concrete environments used to instantiate the theorems -/

/-- Session environment whose first test run passes, with no timeout,
no commits on the branch and 10 elapsed seconds. -/
def sessionEnvA : OrchestratorEnv :=
  { timedOut := fun _ _ => false
    testResult := fun _ => { passed := true, errors := [] }
    scanResult := fun _ => []
    fixResult := fun _ => { results := [], bugsFixed := 0 }
    commitCountAt := fun _ => 0
    elapsedAt := fun _ => 10
    finalTestPassed := true }

/-- Session environment that times out immediately and whose final test
fails with no bug ever recorded. -/
def sessionEnvB : OrchestratorEnv :=
  { timedOut := fun _ _ => true
    testResult := fun _ => { passed := false, errors := [] }
    scanResult := fun _ => []
    fixResult := fun _ => { results := [], bugsFixed := 0 }
    commitCountAt := fun _ => 0
    elapsedAt := fun _ => 400
    finalTestPassed := false }

/-- A bug fixed at attempt 1, at location ("src/a.ts", 5). -/
def bugFixedA : HealingBug :=
  { id := 1, category := "RUNTIME", filePath := "src/a.ts", line := 5,
    message := "boom", severity := "high", fixed := true,
    fixedAtAttempt := some 1 }

/-- A scanner re-detection at the same location as `bugFixedA`. -/
def bugRescanA : HealingBug :=
  { id := 2, category := "RUNTIME", filePath := "src/a.ts", line := 5,
    message := "boom again", severity := "high", fixed := false,
    fixedAtAttempt := none }

/-- Session environment whose scanner keeps re-reporting the location of
`bugFixedA` on every attempt. -/
def sessionEnvC : OrchestratorEnv :=
  { timedOut := fun _ _ => false
    testResult := fun _ => { passed := false, errors := [] }
    scanResult := fun _ => [bugRescanA]
    fixResult := fun _ => { results := [], bugsFixed := 0 }
    commitCountAt := fun _ => 0
    elapsedAt := fun _ => 100
    finalTestPassed := false }

/-- PR environment whose create call always answers HTTP 422 with a
"pull request already exists" body and whose search finds the PR. -/
def prEnv422 : PREnv :=
  { createResp := fun _ => .inl
      { status := 422, message := some "Validation Failed", statusText := "",
        errorsFirstMessage := some "A pull request already exists for bot:BRANCH.",
        prNumber := 0, prUrl := "" }
    searchResult := some [(7, "https://github.com/o/r/pull/7")] }

/-- Fork environment with the token present whose fork fetch rejects with
a network error on every attempt. -/
def forkEnvNet : ForkEnv :=
  { tokenPresent := true
    fetchFork := fun _ => .inr "fetch failed" }

/-! ## Helper lemmas -/

/-- Unfolding of `finalScore` as one clamp of a linear expression. -/
theorem finalScore_formula (bugs : List HealingBug) (testsPassed : Bool)
    (attempts totalCommits : Nat) (timeSeconds : ℚ) :
    (calculateScore bugs testsPassed attempts totalCommits timeSeconds).finalScore =
      max 0 (min 100
        ((if bugs.length > 0 then
            jsRound ((fixedCount bugs : ℚ) / (bugs.length : ℚ) * 60) else 0)
          + (if testsPassed then 20 else 0)
          + (if attempts ≤ 2 then 10 else if attempts ≤ 3 then 5 else 0)
          + (if timeSeconds < 300 then 10 else 0)
          - (if totalCommits > 20 then (totalCommits : ℤ) - 20 else 0))) := rfl

/-- The clamp `max 0 (min 100 ·)` is monotone. -/
theorem clamp_mono {a b : ℤ} (h : a ≤ b) :
    max 0 (min 100 a) ≤ max 0 (min 100 b) := by omega

/-- jsRound is monotone. -/
theorem jsRound_mono {a b : ℚ} (h : a ≤ b) : jsRound a ≤ jsRound b :=
  Int.floor_le_floor (by linarith)

end ProtocolZero

namespace ProtocolZero

/-! ## Theorems for the claims -/

/-- C1: the score computed at loop termination follows the fixed formula
exactly: for every bug list, testsPassed flag, attempt count, commit count
and elapsed time, `calculateScore` returns base = round(bugsFixed/totalBugs
* 60) (0 when totalBugs = 0), plus 20 if testsPassed, plus 10 if attempts
≤ 2 else 5 if attempts ≤ 3 else 0; speedBonus = 10 if elapsedSeconds <
300 else 0; commitPenalty = max(0, totalCommits − 20); and finalScore =
clamp(base + speedBonus − commitPenalty, 0, 100). -/
theorem C1_calculateScore_follows_spec_formula (bugs : List HealingBug)
    (testsPassed : Bool) (attempts totalCommits : Nat) (timeSeconds : ℚ) :
    (calculateScore bugs testsPassed attempts totalCommits timeSeconds).totalBugs
        = bugs.length ∧
    (calculateScore bugs testsPassed attempts totalCommits timeSeconds).bugsFixed
        = fixedCount bugs ∧
    (calculateScore bugs testsPassed attempts totalCommits timeSeconds).speedBonus
        = specSpeedBonus timeSeconds ∧
    (calculateScore bugs testsPassed attempts totalCommits timeSeconds).commitPenalty
        = specCommitPenalty totalCommits ∧
    (calculateScore bugs testsPassed attempts totalCommits timeSeconds).finalScore
        = specFinalScore (fixedCount bugs) bugs.length testsPassed attempts
            totalCommits timeSeconds := by
  refine ⟨rfl, rfl, rfl, ?_, ?_⟩
  · show (if totalCommits > MAX_COMMITS_PENALTY_THRESHOLD then
        (totalCommits : ℤ) - (MAX_COMMITS_PENALTY_THRESHOLD : ℤ) else 0)
      = specCommitPenalty totalCommits
    unfold specCommitPenalty MAX_COMMITS_PENALTY_THRESHOLD
    split_ifs with h <;> omega
  · rw [finalScore_formula]
    unfold specFinalScore specBase specSpeedBonus specCommitPenalty
    have hbase : (if bugs.length > 0 then
          jsRound ((fixedCount bugs : ℚ) / (bugs.length : ℚ) * 60) else 0)
        = (if bugs.length = 0 then 0 else
          jsRound ((fixedCount bugs : ℚ) / (bugs.length : ℚ) * 60)) := by
      rcases Nat.eq_zero_or_pos bugs.length with h | h
      · simp [h]
      · rw [if_pos h, if_neg (Nat.pos_iff_ne_zero.mp h)]
    have hpen : (if totalCommits > 20 then (totalCommits : ℤ) - 20 else 0)
        = max 0 ((totalCommits : ℤ) - 20) := by
      split_ifs with h <;> omega
    rw [hbase, hpen]

/-- C8: `calculateScore` is monotonically non-decreasing in the number of
fixed bugs holding all other inputs constant (equal-length bug lists, the
second with at least as many fixed entries), and for every input —
including pathological ones — the returned finalScore lies in [0, 100]. -/
theorem C8_score_monotone_and_clamped (bugs1 bugs2 : List HealingBug)
    (testsPassed : Bool) (attempts totalCommits : Nat) (timeSeconds : ℚ)
    (hlen : bugs1.length = bugs2.length)
    (hfix : fixedCount bugs1 ≤ fixedCount bugs2) :
    (calculateScore bugs1 testsPassed attempts totalCommits timeSeconds).finalScore
      ≤ (calculateScore bugs2 testsPassed attempts totalCommits timeSeconds).finalScore
    ∧ ∀ (bugs : List HealingBug) (tp : Bool) (a tc : Nat) (t : ℚ),
        0 ≤ (calculateScore bugs tp a tc t).finalScore ∧
        (calculateScore bugs tp a tc t).finalScore ≤ 100 := by
  constructor
  · rw [finalScore_formula, finalScore_formula, ← hlen]
    apply clamp_mono
    have hb : (if bugs1.length > 0 then
          jsRound ((fixedCount bugs1 : ℚ) / (bugs1.length : ℚ) * 60) else 0)
        ≤ (if bugs1.length > 0 then
          jsRound ((fixedCount bugs2 : ℚ) / (bugs1.length : ℚ) * 60) else 0) := by
      rcases Nat.eq_zero_or_pos bugs1.length with h0 | hpos
      · simp [h0]
      · rw [if_pos hpos, if_pos hpos]
        apply jsRound_mono
        have hn : (0 : ℚ) < (bugs1.length : ℚ) := by exact_mod_cast hpos
        have : (fixedCount bugs1 : ℚ) ≤ (fixedCount bugs2 : ℚ) := by
          exact_mod_cast hfix
        have := (div_le_div_iff_of_pos_right hn).mpr this
        linarith
    omega
  · intro bugs tp a tc t
    rw [finalScore_formula]
    constructor
    · exact le_max_left 0 _
    · exact max_le (by norm_num) (min_le_left 100 _)

/-- C8 witness: the monotonicity theorem applied at a concrete pair of
equal-length bug lists (second one fixed) with pathological commit count. -/
theorem C8_score_monotone_and_clamped_witness :
    (calculateScore
        [{ id := 1, category := "SYNTAX", filePath := "a.ts", line := 3,
           message := "m", severity := "high", fixed := false,
           fixedAtAttempt := none }] true 1 1000 10).finalScore
      ≤ (calculateScore
        [{ id := 1, category := "SYNTAX", filePath := "a.ts", line := 3,
           message := "m", severity := "high", fixed := true,
           fixedAtAttempt := some 1 }] true 1 1000 10).finalScore
    ∧ ∀ (bugs : List HealingBug) (tp : Bool) (a tc : Nat) (t : ℚ),
        0 ≤ (calculateScore bugs tp a tc t).finalScore ∧
        (calculateScore bugs tp a tc t).finalScore ≤ 100 :=
  C8_score_monotone_and_clamped
    [{ id := 1, category := "SYNTAX", filePath := "a.ts", line := 3,
       message := "m", severity := "high", fixed := false,
       fixedAtAttempt := none }]
    [{ id := 1, category := "SYNTAX", filePath := "a.ts", line := 3,
       message := "m", severity := "high", fixed := true,
       fixedAtAttempt := some 1 }]
    true 1 1000 10 (by decide) (by decide)

/-- C9: `getHealingBranchName` collapses whitespace runs to underscores,
strips characters other than `[A-Z0-9_]`, upper-cases, and appends
`_AI_Fix`; on ("tech chaos", "Anurag Mishra!") it yields
"TECH_CHAOS_ANURAG_MISHRA_AI_Fix", and for every input pair the part
before the fixed `_AI_Fix` suffix contains only uppercase letters, digits
and underscores. -/
theorem C9_getHealingBranchName_normalizes :
    getHealingBranchName "tech chaos" "Anurag Mishra!"
        = "TECH_CHAOS_ANURAG_MISHRA_AI_Fix"
    ∧ ∀ teamName leaderName : String, ∃ body : List Char,
        (getHealingBranchName teamName leaderName).toList
            = body ++ "_AI_Fix".toList
        ∧ ∀ c ∈ body, branchAllowedChar c = true := by
  constructor
  · decide
  · intro teamName leaderName
    refine ⟨normalizeNamePart teamName ++ '_' :: normalizeNamePart leaderName,
      rfl, ?_⟩
    intro c hc
    rcases List.mem_append.mp hc with h | h
    · exact (List.mem_filter.mp h).2
    · rcases h with _ | ⟨_, h⟩
      · decide
      · exact (List.mem_filter.mp h).2

/-- C9 witness: the universal part of the theorem applied at a concrete
input pair. -/
theorem C9_getHealingBranchName_normalizes_witness :
    ∃ body : List Char,
      (getHealingBranchName "team x" "lead y").toList = body ++ "_AI_Fix".toList
      ∧ ∀ c ∈ body, branchAllowedChar c = true :=
  C9_getHealingBranchName_normalizes.2 "team x" "lead y"

/-- C4: for every session that created a sandbox (the orchestrator's
`repoDir` variable is nonempty exactly when `cloneRepo` returned), the
sandbox directory is absent after the `finally` block runs — on the normal
and on the throwing path alike, since `exitState.threw` is arbitrary — and
`cleanupSandbox` is idempotent and a non-failing no-op on a missing
directory. -/
theorem C4_cleanup_on_finally_and_idempotent (sessionId : String)
    (exitState : LoopBodyExit) (hRepo : ¬ exitState.repoDir = "") :
    ¬ getSandboxDir sessionId ∈ sessionFinallyCleanup sessionId exitState
    ∧ (∀ fs : FileSystem,
        cleanupSandbox (cleanupSandbox fs sessionId) sessionId
          = cleanupSandbox fs sessionId)
    ∧ (∀ fs : FileSystem, ¬ getSandboxDir sessionId ∈ fs →
        cleanupSandbox fs sessionId = fs) := by
  have hnotmem : ∀ fs : FileSystem,
      ¬ getSandboxDir sessionId ∈ cleanupSandbox fs sessionId := by
    intro fs
    unfold cleanupSandbox existsSyncDir rmSyncRecursiveForce
    by_cases h : getSandboxDir sessionId ∈ fs
    · rw [if_pos (by simpa [List.contains] using h)]
      simp [List.mem_filter]
    · rw [if_neg (by simpa [List.contains] using h)]
      exact h
  have hnoop : ∀ fs : FileSystem, ¬ getSandboxDir sessionId ∈ fs →
      cleanupSandbox fs sessionId = fs := by
    intro fs h
    unfold cleanupSandbox existsSyncDir
    rw [if_neg (by simpa [List.contains] using h)]
  refine ⟨?_, ?_, hnoop⟩
  · unfold sessionFinallyCleanup
    rw [if_neg hRepo]
    exact hnotmem exitState.fs
  · intro fs
    exact hnoop _ (hnotmem fs)

/-- C4 witness: the theorem applied at a concrete session exit state (one
that threw mid-attempt, with the sandbox directory present). -/
theorem C4_cleanup_on_finally_and_idempotent_witness :
    ¬ getSandboxDir "s1" ∈ sessionFinallyCleanup "s1"
        { fs := ["/tmp/self-healing/s1"], repoDir := "/tmp/self-healing/s1",
          threw := true }
    ∧ (∀ fs : FileSystem,
        cleanupSandbox (cleanupSandbox fs "s1") "s1" = cleanupSandbox fs "s1")
    ∧ (∀ fs : FileSystem, ¬ getSandboxDir "s1" ∈ fs →
        cleanupSandbox fs "s1" = fs) :=
  C4_cleanup_on_finally_and_idempotent "s1"
    { fs := ["/tmp/self-healing/s1"], repoDir := "/tmp/self-healing/s1",
      threw := true } (by decide)

/-! ### Lemmas about the URL parser -/

/-- dropLit succeeds on its own literal followed by anything. -/
theorem dropLit_self (p t : List Char) : dropLit p (p ++ t) = some t := by
  induction p with
  | nil => rfl
  | cons c cs ih => simp [dropLit, ih]

/-- dropLit fails on a head mismatch. -/
theorem dropLit_head_ne (p c : Char) (ps cs : List Char) (h : ¬ p = c) :
    dropLit (p :: ps) (c :: cs) = none := by
  simp [dropLit, h]

/-- tryPatternAt fails at any position not starting with `'g'`. -/
theorem tryPatternAt_head_ne (rt : List Char → Option (List Char)) (c : Char)
    (l : List Char) (h : ¬ 'g' = c) : tryPatternAt rt (c :: l) = none := by
  have hd : dropLit ghLit (c :: l) = none := dropLit_head_ne 'g' c _ l h
  unfold tryPatternAt
  rw [hd]

/-- Unfolding of scanMatch on a cons cell. -/
theorem scanMatch_cons (rt : List Char → Option (List Char)) (c : Char)
    (rest : List Char) :
    scanMatch rt (c :: rest)
      = match tryPatternAt rt (c :: rest) with
        | some r => some r
        | none => scanMatch rt rest := rfl

/-- scanMatch skips a position where the pattern does not match. -/
theorem scanMatch_skip_one (rt : List Char → Option (List Char)) (c : Char)
    (rest : List Char) (h : tryPatternAt rt (c :: rest) = none) :
    scanMatch rt (c :: rest) = scanMatch rt rest := by
  rw [scanMatch_cons, h]

/-- scanMatch skips the eight characters of a leading `https://`. -/
theorem scanMatch_https_skip (rt : List Char → Option (List Char))
    (l : List Char) :
    scanMatch rt
        ('h' :: 't' :: 't' :: 'p' :: 's' :: ':' :: '/' :: '/' :: l)
      = scanMatch rt l := by
  rw [scanMatch_skip_one rt 'h' _ (tryPatternAt_head_ne rt 'h' _ (by decide)),
    scanMatch_skip_one rt 't' _ (tryPatternAt_head_ne rt 't' _ (by decide)),
    scanMatch_skip_one rt 't' _ (tryPatternAt_head_ne rt 't' _ (by decide)),
    scanMatch_skip_one rt 'p' _ (tryPatternAt_head_ne rt 'p' _ (by decide)),
    scanMatch_skip_one rt 's' _ (tryPatternAt_head_ne rt 's' _ (by decide)),
    scanMatch_skip_one rt ':' _ (tryPatternAt_head_ne rt ':' _ (by decide)),
    scanMatch_skip_one rt '/' _ (tryPatternAt_head_ne rt '/' _ (by decide)),
    scanMatch_skip_one rt '/' _ (tryPatternAt_head_ne rt '/' _ (by decide))]

/-- scanMatch returns the match found at the current position. -/
theorem scanMatch_hit (rt : List Char → Option (List Char))
    (rest : List Char) (r : List Char × List Char)
    (h : tryPatternAt rt (ghLit ++ rest) = some r) :
    scanMatch rt (ghLit ++ rest) = some r := by
  show scanMatch rt
    ('g' :: 'i' :: 't' :: 'h' :: 'u' :: 'b' :: '.' :: 'c' :: 'o' :: 'm' ::
      '/' :: rest) = some r
  rw [scanMatch_cons,
    show tryPatternAt rt
      ('g' :: 'i' :: 't' :: 'h' :: 'u' :: 'b' :: '.' :: 'c' :: 'o' :: 'm' ::
        '/' :: rest) = some r from h]

/-- Unfolding of tryPatternAt right after the `github.com/` literal. -/
theorem tryPatternAt_lit (rt : List Char → Option (List Char))
    (rest : List Char) :
    tryPatternAt rt (ghLit ++ rest)
      = match matchOwner rest with
        | some (owner, tail) =>
          match rt tail with
          | some repo => some (owner, repo)
          | none => none
        | none => none := by
  unfold tryPatternAt
  rw [dropLit_self]

/-- takeWhile over a satisfying block followed by a failing element. -/
theorem takeWhile_app (p : Char → Bool) (o : List Char) (x : Char)
    (t : List Char) (h : ∀ c ∈ o, p c = true) (hx : p x = false) :
    (o ++ x :: t).takeWhile p = o := by
  induction o with
  | nil => simp [List.takeWhile_cons, hx]
  | cons a o ih =>
    have ha := h a (by simp)
    simp only [List.cons_append, List.takeWhile_cons, ha, if_true]
    rw [ih (fun c hc => h c (by simp [hc]))]

/-- dropWhile over a satisfying block followed by a failing element. -/
theorem dropWhile_app (p : Char → Bool) (o : List Char) (x : Char)
    (t : List Char) (h : ∀ c ∈ o, p c = true) (hx : p x = false) :
    (o ++ x :: t).dropWhile p = x :: t := by
  induction o with
  | nil => simp [List.dropWhile_cons, hx]
  | cons a o ih =>
    have ha := h a (by simp)
    simp only [List.cons_append, List.dropWhile_cons, ha, if_true]
    exact ih (fun c hc => h c (by simp [hc]))

/-- matchOwner on a well-formed owner segment. -/
theorem matchOwner_app (owner t : List Char) (hne : ¬ owner = [])
    (h : ∀ c ∈ owner, ¬ c = '/') :
    matchOwner (owner ++ '/' :: t) = some (owner, t) := by
  have hall : ∀ c ∈ owner, notSlash c = true := fun c hc => by
    simp [notSlash, h c hc]
  have hx : notSlash '/' = false := by decide
  unfold matchOwner
  rw [takeWhile_app notSlash owner '/' t hall hx,
    dropWhile_app notSlash owner '/' t hall hx]
  cases owner with
  | nil => exact absurd rfl hne
  | cons a o => rfl

/-- repoTail1 accepts a nonempty run without `'/'` or `'.'`. -/
theorem repoTail1_plain (repo : List Char) (hne : ¬ repo = [])
    (h : ∀ c ∈ repo, ¬ c = '/' ∧ ¬ c = '.') : repoTail1 repo = some repo := by
  unfold repoTail1
  rw [if_pos]
  exact ⟨by simp [List.isEmpty_iff, hne], List.all_eq_true.mpr
    (fun c hc => by simpa using h c hc)⟩

/-- dropDotGit strips a literal `.git` suffix. -/
theorem dropDotGit_app (repo : List Char) :
    dropDotGit (repo ++ ['.', 'g', 'i', 't']) = some repo := by
  unfold dropDotGit
  have hlen : (repo ++ ['.', 'g', 'i', 't']).length - 4 = repo.length := by
    simp [List.length_append]
  rw [if_pos]
  · rw [hlen, List.take_left]
  · constructor
    · simp [List.length_append]
    · rw [hlen, List.drop_left]

/-- repoTail1 accepts a nonempty run without `'/'` or `'.'` followed by
`.git`, capturing only the run. -/
theorem repoTail1_dotgit (repo : List Char) (hne : ¬ repo = [])
    (h : ∀ c ∈ repo, ¬ c = '/' ∧ ¬ c = '.') :
    repoTail1 (repo ++ ['.', 'g', 'i', 't']) = some repo := by
  have hfalse : ((repo ++ ['.', 'g', 'i', 't']).all
      fun c => decide (¬ c = '/' ∧ ¬ c = '.')) = false := by
    simp only [List.all_append, Bool.and_eq_false_iff]
    right
    decide
  have htrue : (repo.all fun c => decide (¬ c = '/' ∧ ¬ c = '.')) = true :=
    List.all_eq_true.mpr (fun c hc => by simpa using h c hc)
  have hne' : repo.isEmpty = false := by simp [List.isEmpty_iff, hne]
  simp [repoTail1, dropDotGit_app, hfalse, htrue, hne']
  exact h

/-- C6 counterexample: the parser accepts an input that is not of the form
`https://github.com/owner/repo[.git]` (the host is `evilgithub.com`, as the
failing literal-prefix test records), returning `{owner: "a", repo: "b"}`
instead of failing with InvalidUrl. -/
theorem C6_counterexample_other_host_accepted :
    parseGitHubUrl "https://evilgithub.com/a/b".toList
        = some ("a".toList, "b".toList)
    ∧ startsWithLit "https://github.com/".toList
        "https://evilgithub.com/a/b".toList = false := by
  exact ⟨by decide, by decide⟩

/-- C6 (amended): `parseGitHubUrl` returns {owner, repo} for URLs of the
form `https://github.com/owner/repo` with an optional `.git` suffix, and
fails (throws InvalidUrl, modelled as `none`) when neither regex matches —
e.g. the SSH colon form; but the match being unanchored at the start, it
also accepts other hosts or schemes whose text contains
`github.com/owner/repo` ending the string, so "every other input fails"
does not hold (see the counterexample). -/
theorem C6_parseGitHubUrl_amended (owner repo : List Char)
    (hoNe : ¬ owner = []) (ho : ∀ c ∈ owner, ¬ c = '/')
    (hrNe : ¬ repo = []) (hr : ∀ c ∈ repo, ¬ c = '/' ∧ ¬ c = '.') :
    parseGitHubUrl ("https://github.com/".toList ++ owner ++ '/' :: repo)
        = some (owner, repo)
    ∧ parseGitHubUrl ("https://github.com/".toList ++ owner
        ++ '/' :: (repo ++ ".git".toList)) = some (owner, repo)
    ∧ parseGitHubUrl "git@github.com:owner/repo.git".toList = none := by
  refine ⟨?_, ?_, by decide⟩
  · have h1 : tryPatternAt repoTail1 (ghLit ++ (owner ++ '/' :: repo))
        = some (owner, repo) := by
      rw [tryPatternAt_lit]
      simp only [matchOwner_app owner repo hoNe ho,
        repoTail1_plain repo hrNe hr]
    show parseGitHubUrl
      ('h' :: 't' :: 't' :: 'p' :: 's' :: ':' :: '/' :: '/' ::
        (ghLit ++ (owner ++ '/' :: repo))) = some (owner, repo)
    unfold parseGitHubUrl
    rw [scanMatch_https_skip, scanMatch_hit repoTail1 _ _ h1]
  · have h1 : tryPatternAt repoTail1
        (ghLit ++ (owner ++ '/' :: (repo ++ ['.', 'g', 'i', 't'])))
        = some (owner, repo) := by
      rw [tryPatternAt_lit]
      simp only [matchOwner_app owner _ hoNe ho,
        repoTail1_dotgit repo hrNe hr]
    show parseGitHubUrl
      ('h' :: 't' :: 't' :: 'p' :: 's' :: ':' :: '/' :: '/' ::
        (ghLit ++ (owner ++ '/' :: (repo ++ ['.', 'g', 'i', 't']))))
        = some (owner, repo)
    unfold parseGitHubUrl
    rw [scanMatch_https_skip, scanMatch_hit repoTail1 _ _ h1]

/-- C6 witness: the amended theorem applied at owner "foo", repo "bar". -/
theorem C6_parseGitHubUrl_amended_witness :
    parseGitHubUrl "https://github.com/foo/bar".toList
        = some ("foo".toList, "bar".toList)
    ∧ parseGitHubUrl "https://github.com/foo/bar.git".toList
        = some ("foo".toList, "bar".toList)
    ∧ parseGitHubUrl "git@github.com:owner/repo.git".toList = none :=
  C6_parseGitHubUrl_amended "foo".toList "bar".toList (by decide) (by decide)
    (by decide) (by decide)

/-! ### C7: createPullRequest tolerates an already-existing PR -/

/-- C7: when the create-pull-request call fails with HTTP 422 and a body
whose first error message includes "pull request already exists",
`createPullRequest` returns success: true together with a resolved PR URL
(the searched-up existing PR's, or the repository's pulls page) instead of
propagating an error or returning success: false. -/
theorem C7_createPullRequest_already_exists (env : PREnv)
    (originalOwner originalRepo : String) (r : PRResponse)
    (hresp : env.createResp 1 = .inl r) (h422 : r.status = 422)
    (hmsg : (match r.errorsFirstMessage with
      | some m => containsSub prAlreadyExistsLit m.toList
      | none => false) = true) :
    (createPullRequest env originalOwner originalRepo).success = true
    ∧ (createPullRequest env originalOwner originalRepo).prUrl ≠ none
    ∧ (createPullRequest env originalOwner originalRepo).error = none := by
  have hok : respOk r.status = false := by simp [respOk, h422]
  have hae : prAlreadyExists r = true := by
    unfold prAlreadyExists
    rw [h422]
    simpa using hmsg
  have houtcome : prAttemptOutcome env originalOwner originalRepo 1
      = .inl (resolveExistingPR env originalOwner originalRepo) := by
    unfold prAttemptOutcome
    rw [hresp]
    simp [hok, hae]
  have hres : createPullRequest env originalOwner originalRepo
      = resolveExistingPR env originalOwner originalRepo := by
    unfold createPullRequest
    rw [houtcome]
  rw [hres]
  unfold resolveExistingPR
  rcases env.searchResult with _ | l
  · exact ⟨rfl, by simp, rfl⟩
  · rcases l with _ | ⟨p, l⟩
    · exact ⟨rfl, by simp, rfl⟩
    · exact ⟨rfl, by simp, rfl⟩

/-- C7 witness: the theorem applied at the concrete environment
`prEnv422`. -/
theorem C7_createPullRequest_already_exists_witness :
    (createPullRequest prEnv422 "o" "r").success = true
    ∧ (createPullRequest prEnv422 "o" "r").prUrl ≠ none
    ∧ (createPullRequest prEnv422 "o" "r").error = none :=
  C7_createPullRequest_already_exists prEnv422 "o" "r"
    { status := 422, message := some "Validation Failed", statusText := "",
      errorsFirstMessage := some "A pull request already exists for bot:BRANCH.",
      prNumber := 0, prUrl := "" }
    rfl rfl (by decide)

/-! ### C10: forkRepo resolves rather than rejecting -/

/-- Helper: a String starting with a nonempty literal is nonempty. -/
theorem append_ne_empty_of_left (a b : String) (ha : 0 < a.length) :
    ¬ (a ++ b) = "" := by
  intro h
  have h2 := congrArg String.length h
  rw [String.length_append] at h2
  have h3 : ("" : String).length = 0 := rfl
  rw [h3] at h2
  omega

/-- The messages thrown on non-ok fork responses are never empty. -/
theorem forkErrorMessage_ne_empty (r : GitHubForkResponse) :
    ¬ forkErrorMessage r = "" := by
  simp only [forkErrorMessage]
  split_ifs
  · apply append_ne_empty_of_left
    rw [String.length_append, String.length_append]
    have : 0 < ("Fork failed (403): " : String).length := by decide
    omega
  · apply append_ne_empty_of_left
    rw [String.length_append, String.length_append]
    have : 0 < ("Fork failed (" : String).length := by decide
    omega

/-- A returned fork attempt result always has `success = true`. -/
theorem forkAttemptOutcome_inl_success (env : ForkEnv) (repo : String)
    (n : Nat) (res : ForkResult)
    (h : forkAttemptOutcome env repo n = .inl res) : res.success = true := by
  unfold forkAttemptOutcome at h
  rcases henv : env.fetchFork n with r | m
  · rw [henv] at h
    dsimp only at h
    split_ifs at h <;> cases h
    rfl
  · rw [henv] at h
    dsimp only at h
    cases h

/-- A caught fork attempt error message is nonempty, provided the
environment's network errors carry nonempty messages. -/
theorem forkAttemptOutcome_inr_ne_empty (env : ForkEnv) (repo : String)
    (n : Nat) (m : String)
    (hmsgs : ∀ k mk, env.fetchFork k = .inr mk → ¬ mk = "")
    (h : forkAttemptOutcome env repo n = .inr m) : ¬ m = "" := by
  unfold forkAttemptOutcome at h
  rcases henv : env.fetchFork n with r | m2
  · rw [henv] at h
    dsimp only at h
    split_ifs at h <;> cases h
    exact forkErrorMessage_ne_empty r
  · rw [henv] at h
    dsimp only at h
    cases h
    exact hmsgs n _ henv

/-- C10: provided the bot token environment variable is set, `forkRepo`
never rejects: for every failure mode (HTTP 403, other non-OK responses,
network errors with their runtime-supplied nonempty messages, and after
exhausting its two bounded attempts) it resolves with a ForkResult whose
success is false, whose error field is a nonempty message, and whose
forkOwner/forkRepo/forkUrl are empty; an exception reaches the caller
exactly when the token itself is missing. -/
theorem C10_forkRepo_never_rejects (env : ForkEnv) (owner repo : String)
    (hmsgs : ∀ k mk, env.fetchFork k = .inr mk → ¬ mk = "") :
    (env.tokenPresent = true →
      ∃ res : ForkResult, forkRepo env owner repo = .ok res
        ∧ (res.success = false →
            res.forkOwner = "" ∧ res.forkRepo = "" ∧ res.forkUrl = ""
            ∧ ∃ e : String, res.error = some e ∧ ¬ e = ""))
    ∧ (env.tokenPresent = false →
        forkRepo env owner repo = .error tokenMissingMessage) := by
  constructor
  · intro htok
    unfold forkRepo
    rw [if_neg (by simp [htok])]
    refine ⟨_, rfl, ?_⟩
    rcases h1 : forkAttemptOutcome env repo 1 with res1 | m1
    · dsimp only
      intro hfail
      rw [forkAttemptOutcome_inl_success env repo 1 res1 h1] at hfail
      cases hfail
    · dsimp only
      rcases h2 : forkAttemptOutcome env repo 2 with res2 | m2
      · dsimp only
        intro hfail
        rw [forkAttemptOutcome_inl_success env repo 2 res2 h2] at hfail
        cases hfail
      · dsimp only
        intro _
        exact ⟨rfl, rfl, rfl, m2, rfl,
          forkAttemptOutcome_inr_ne_empty env repo 2 m2 hmsgs h2⟩
  · intro htok
    unfold forkRepo
    rw [if_pos (by simp [htok])]

/-- C10 witness: the theorem applied at the concrete environment
`forkEnvNet`, whose fork fetch rejects on both attempts. -/
theorem C10_forkRepo_never_rejects_witness :
    (forkEnvNet.tokenPresent = true →
      ∃ res : ForkResult, forkRepo forkEnvNet "o" "r" = .ok res
        ∧ (res.success = false →
            res.forkOwner = "" ∧ res.forkRepo = "" ∧ res.forkUrl = ""
            ∧ ∃ e : String, res.error = some e ∧ ¬ e = ""))
    ∧ (forkEnvNet.tokenPresent = false →
        forkRepo forkEnvNet "o" "r" = .error tokenMissingMessage) :=
  C10_forkRepo_never_rejects forkEnvNet "o" "r"
    (by
      intro k mk h
      cases h
      decide)

/-! ### Lemmas about the healing loop -/

/-- locClash is symmetric. -/
theorem locClash_symm {a b : HealingBug} (h : locClash a b) : locClash b a :=
  ⟨h.1.symm, h.2.symm⟩

/-- In a location-deduplicated list, two members at the same location are
the same entry. -/
theorem nodupLoc_mem_unique (l : List HealingBug) (h : NodupLoc l)
    (x y : HealingBug) (hx : x ∈ l) (hy : y ∈ l) (hcl : locClash x y) :
    x = y := by
  by_contra hne
  have hsym : Symmetric (fun a b : HealingBug => ¬ locClash a b) :=
    fun a b hab hba => hab (locClash_symm hba)
  exact List.Pairwise.forall hsym h hx hy hne hcl

/-- Appending a bug at a fresh location preserves deduplication. -/
theorem nodupLoc_append_single (acc : List HealingBug) (bug : HealingBug)
    (hacc : NodupLoc acc) (h : ∀ y ∈ acc, ¬ locClash y bug) :
    NodupLoc (acc ++ [bug]) := by
  unfold NodupLoc at hacc ⊢
  rw [List.pairwise_append]
  refine ⟨hacc, List.pairwise_singleton _ _, ?_⟩
  intro a ha b hb
  simp only [List.mem_singleton] at hb
  subst hb
  exact h a ha

/-- Full characterization of one scan-integration pass over `acc`:
deduplication is preserved, the accumulated list only grows by entries
whose location clashes with no fixed entry of `acc`, and the actionable
list contains no entry at a location fixed in `acc`. -/
theorem integrateScan_spec (scan : List HealingBug) :
    ∀ acc : List HealingBug, NodupLoc acc →
      NodupLoc (integrateScan scan acc).1
      ∧ (∃ added, (integrateScan scan acc).1 = acc ++ added
          ∧ ∀ x ∈ added, ∀ y ∈ acc, y.fixed = true → ¬ locClash x y)
      ∧ (∀ x ∈ (integrateScan scan acc).2, ∀ y ∈ acc,
          y.fixed = true → ¬ locClash x y) := by
  induction scan with
  | nil =>
    intro acc hacc
    refine ⟨hacc, ⟨[], by simp [integrateScan], by simp⟩, ?_⟩
    intro x hx
    simp [integrateScan] at hx
  | cons bug rest ih =>
    intro acc hacc
    by_cases hfx : acc.any (fun b => decide (locClash b bug) && b.fixed) = true
    · have heq : integrateScan (bug :: rest) acc = integrateScan rest acc := by
        simp only [integrateScan]
        rw [if_pos hfx]
      rw [heq]
      exact ih acc hacc
    · have hfix' : ∀ y ∈ acc, y.fixed = true → ¬ locClash y bug := by
        intro y hy hyf hcl
        exact hfx (List.any_eq_true.mpr ⟨y, hy, by simp [hcl, hyf]⟩)
      have hbugOk : ∀ y ∈ acc, y.fixed = true → ¬ locClash bug y :=
        fun y hy hyf hcl => hfix' y hy hyf (locClash_symm hcl)
      by_cases htr : acc.any (fun b => decide (locClash b bug)) = true
      · have heq : integrateScan (bug :: rest) acc
            = ((integrateScan rest acc).1, bug :: (integrateScan rest acc).2) := by
          simp only [integrateScan]
          rw [if_neg hfx, if_pos htr]
        rw [heq]
        obtain ⟨hnd, hadd, hsnd⟩ := ih acc hacc
        refine ⟨hnd, hadd, ?_⟩
        intro x hx
        rcases List.mem_cons.mp hx with rfl | hx
        · exact hbugOk
        · exact hsnd x hx
      · have hNotTracked : ∀ y ∈ acc, ¬ locClash y bug := by
          intro y hy hcl
          exact htr (List.any_eq_true.mpr ⟨y, hy, by simp [hcl]⟩)
        have hacc' : NodupLoc (acc ++ [bug]) :=
          nodupLoc_append_single acc bug hacc hNotTracked
        have heq : integrateScan (bug :: rest) acc
            = ((integrateScan rest (acc ++ [bug])).1,
                bug :: (integrateScan rest (acc ++ [bug])).2) := by
          simp only [integrateScan]
          rw [if_neg hfx, if_neg htr]
        rw [heq]
        obtain ⟨hnd, ⟨added, haddeq, haddok⟩, hsnd⟩ := ih (acc ++ [bug]) hacc'
        refine ⟨hnd, ⟨bug :: added, ?_, ?_⟩, ?_⟩
        · rw [haddeq, List.append_assoc]
          rfl
        · intro x hx
          rcases List.mem_cons.mp hx with rfl | hx
          · exact hbugOk
          · exact fun y hy hyf =>
              haddok x hx y (List.mem_append_left _ hy) hyf
        · intro x hx
          rcases List.mem_cons.mp hx with rfl | hx
          · exact hbugOk
          · exact fun y hy hyf =>
              hsnd x hx y (List.mem_append_left _ hy) hyf

/-- addNewBugs preserves location-deduplication. -/
theorem addNewBugs_nodup (news : List HealingBug) :
    ∀ acc, NodupLoc acc → NodupLoc (addNewBugs news acc) := by
  induction news with
  | nil => intro acc hacc; exact hacc
  | cons bug rest ih =>
    intro acc hacc
    simp only [addNewBugs]
    by_cases htr : acc.any (fun b => decide (locClash b bug)) = true
    · rw [if_pos htr]
      exact ih acc hacc
    · rw [if_neg htr]
      refine ih _ (nodupLoc_append_single acc bug hacc ?_)
      intro y hy hcl
      exact htr (List.any_eq_true.mpr ⟨y, hy, by simp [hcl]⟩)

/-- Members of setFixedFirst come from the original list up to the
fixed/fixedAtAttempt fields (locations are unchanged). -/
theorem setFixedFirst_loc (bugId att : Nat) (l : List HealingBug) :
    ∀ y ∈ setFixedFirst bugId att l,
      ∃ y0 ∈ l, y.filePath = y0.filePath ∧ y.line = y0.line := by
  induction l with
  | nil => intro y hy; simp [setFixedFirst] at hy
  | cons b rest ih =>
    intro y hy
    simp only [setFixedFirst] at hy
    by_cases hb : b.id = bugId
    · rw [if_pos hb] at hy
      rcases List.mem_cons.mp hy with rfl | hy
      · exact ⟨b, by simp, rfl, rfl⟩
      · exact ⟨y, by simp [hy], rfl, rfl⟩
    · rw [if_neg hb] at hy
      rcases List.mem_cons.mp hy with rfl | hy
      · exact ⟨y, by simp, rfl, rfl⟩
      · obtain ⟨y0, hy0, h1, h2⟩ := ih y hy
        exact ⟨y0, by simp [hy0], h1, h2⟩

/-- setFixedFirst preserves location-deduplication. -/
theorem setFixedFirst_nodup (bugId att : Nat) :
    ∀ l : List HealingBug, NodupLoc l → NodupLoc (setFixedFirst bugId att l) := by
  intro l
  induction l with
  | nil => intro h; exact h
  | cons b rest ih =>
    intro h
    obtain ⟨hforall, hrest⟩ := List.pairwise_cons.mp h
    simp only [setFixedFirst]
    by_cases hb : b.id = bugId
    · rw [if_pos hb]
      exact List.pairwise_cons.mpr ⟨fun y hy hcl => hforall y hy hcl, hrest⟩
    · rw [if_neg hb]
      refine List.pairwise_cons.mpr ⟨?_, ih hrest⟩
      intro y hy hcl
      obtain ⟨y0, hy0, h1, h2⟩ := setFixedFirst_loc bugId att rest y hy
      exact hforall y0 hy0 ⟨h1 ▸ hcl.1, h2 ▸ hcl.2⟩

/-- markFixed preserves location-deduplication. -/
theorem markFixed_nodup (att : Nat) (results : List FixOutcome) :
    ∀ l : List HealingBug, NodupLoc l → NodupLoc (markFixed att results l) := by
  induction results with
  | nil => intro l h; exact h
  | cons r rest ih =>
    intro l h
    simp only [markFixed, List.foldl_cons]
    by_cases ha : r.applied = true
    · rw [if_pos ha]
      exact ih _ (setFixedFirst_nodup _ _ _ h)
    · rw [if_neg ha]
      exact ih _ h

/-- The bug list of a final-verification outcome is the accumulated list. -/
theorem finalVerification_bugs (env : OrchestratorEnv)
    (b : List HealingBug) (a : List HealingAttempt) :
    (finalVerification env b a).bugs = b := by
  simp only [finalVerification]
  split_ifs <;> rfl

/-- Every run of the attempt loop either returns from inside the loop or
lands in finalVerification. -/
theorem runAttempts_exit_or_final (env : OrchestratorEnv) :
    ∀ (fuel attempt : Nat) (acc : List HealingBug)
      (atts : List HealingAttempt),
      (runAttempts env fuel attempt acc atts).exitedInLoop = true
      ∨ ∃ b a, runAttempts env fuel attempt acc atts
          = finalVerification env b a := by
  intro fuel
  induction fuel with
  | zero => intro attempt acc atts; exact Or.inr ⟨acc, atts, rfl⟩
  | succ fuel ih =>
    intro attempt acc atts
    simp only [runAttempts]
    split_ifs
    all_goals first
      | exact Or.inl rfl
      | exact Or.inr ⟨_, _, rfl⟩
      | exact ih _ _ _

/-- The accumulated bug list stays location-deduplicated through the whole
loop. -/
theorem runAttempts_nodup (env : OrchestratorEnv) :
    ∀ (fuel attempt : Nat) (acc : List HealingBug)
      (atts : List HealingAttempt), NodupLoc acc →
      NodupLoc ((runAttempts env fuel attempt acc atts).bugs) := by
  intro fuel
  induction fuel with
  | zero =>
    intro attempt acc atts hacc
    rw [show runAttempts env 0 attempt acc atts
      = finalVerification env acc atts from rfl, finalVerification_bugs]
    exact hacc
  | succ fuel ih =>
    intro attempt acc atts hacc
    have h1 : NodupLoc (integrateScan (env.scanResult attempt) acc).1 :=
      (integrateScan_spec _ acc hacc).1
    simp only [runAttempts]
    split_ifs
    all_goals first
      | (rw [finalVerification_bugs]; first
          | exact hacc
          | exact h1
          | exact addNewBugs_nodup _ _ h1
          | exact markFixed_nodup _ _ _ (addNewBugs_nodup _ _ h1)
          | exact markFixed_nodup _ _ _ h1)
      | exact hacc
      | exact h1
      | exact addNewBugs_nodup _ _ h1
      | exact ih _ _ _ (markFixed_nodup _ _ _ (addNewBugs_nodup _ _ h1))
      | exact ih _ _ _ (markFixed_nodup _ _ _ h1)

/-- When the loop body never breaks or returns early, one additional
iteration starting from a passing test returns the completed outcome. -/
theorem runAttempts_first_pass (env : OrchestratorEnv) (fuel attempt : Nat)
    (acc : List HealingBug) (atts : List HealingAttempt)
    (hto : env.timedOut attempt 0 = false)
    (hpass : (env.testResult attempt).passed = true) :
    runAttempts env (fuel + 1) attempt acc atts
      = completedInLoop env attempt acc atts 0 := by
  simp only [runAttempts]
  rw [if_neg (by simp [hto]), if_pos hpass]

/-! ### C2: sessions whose tests pass on the very first run -/

/-- C2 counterexample: a session whose test suite passes on the very first
run (no timeout, zero commits, 10 elapsed seconds) does exit after attempt
1 as `completed` with zero bugs, but its finalScore is 40 — 0 (bug term,
totalBugs = 0) + 20 (testsPassed) + 10 (attempts ≤ 2) + 10 (speed) — not
at least 80 as the claim states. -/
theorem C2_counterexample_first_pass_score_40 :
    (runHealingLoop sessionEnvA).status = HealingStatus.completed
    ∧ (runHealingLoop sessionEnvA).bugs = []
    ∧ (runHealingLoop sessionEnvA).score.finalScore = 40
    ∧ ¬ 80 ≤ (runHealingLoop sessionEnvA).score.finalScore := by
  have hrun : runHealingLoop sessionEnvA
      = completedInLoop sessionEnvA 1 [] [] 0 :=
    runAttempts_first_pass sessionEnvA 2 1 [] [] rfl rfl
  rw [hrun]
  have hscore :
      (completedInLoop sessionEnvA 1 [] [] 0).score.finalScore = 40 := by
    show (calculateScore [] true 1 (sessionEnvA.commitCountAt 1)
      (sessionEnvA.elapsedAt 1)).finalScore = 40
    rw [finalScore_formula]
    norm_num [sessionEnvA]
  refine ⟨rfl, rfl, hscore, ?_⟩
  rw [hscore]
  omega

/-- C2 (amended): for every session whose first test run passes (and whose
session timeout has not already expired at the top of attempt 1), the
healing loop exits after attempt 1 with terminal status `completed`, zero
recorded bugs, one passed attempt record, and a PR attempt; its finalScore
is clamp(30 + speedBonus − commitPenalty, 0, 100) — at most 40 (20 for
testsPassed, 10 for attempts ≤ 2, up to 10 speed bonus, since the bug term
is 0 when totalBugs = 0), not at least 80. -/
theorem C2_first_pass_amended (env : OrchestratorEnv)
    (hto : env.timedOut 1 0 = false)
    (hpass : (env.testResult 1).passed = true) :
    (runHealingLoop env).status = HealingStatus.completed
    ∧ (runHealingLoop env).exitedInLoop = true
    ∧ (runHealingLoop env).exitAttempt = 1
    ∧ (runHealingLoop env).bugs = []
    ∧ (runHealingLoop env).attempts
        = [{ attempt := 1, passed := true, bugsFound := 0, bugsFixed := 0 }]
    ∧ (runHealingLoop env).prAttempted = true
    ∧ (runHealingLoop env).score
        = calculateScore [] true 1 (env.commitCountAt 1) (env.elapsedAt 1)
    ∧ (runHealingLoop env).score.finalScore
        = max 0 (min 100 (30 + (if env.elapsedAt 1 < 300 then (10 : ℤ) else 0)
            - (if env.commitCountAt 1 > 20 then
                (env.commitCountAt 1 : ℤ) - 20 else 0)))
    ∧ (runHealingLoop env).score.finalScore ≤ 40 := by
  have hrun : runHealingLoop env = completedInLoop env 1 [] [] 0 :=
    runAttempts_first_pass env 2 1 [] [] hto hpass
  rw [hrun]
  have hfs : (completedInLoop env 1 [] [] 0).score.finalScore
      = max 0 (min 100 (30 + (if env.elapsedAt 1 < 300 then (10 : ℤ) else 0)
          - (if env.commitCountAt 1 > 20 then
              (env.commitCountAt 1 : ℤ) - 20 else 0))) := by
    show (calculateScore [] true 1 (env.commitCountAt 1)
      (env.elapsedAt 1)).finalScore = _
    rw [finalScore_formula]
    simp only [List.length_nil, gt_iff_lt, lt_irrefl, if_false, if_true,
      Nat.le_refl]
    norm_num
  refine ⟨rfl, rfl, rfl, rfl, rfl, rfl, rfl, hfs, ?_⟩
  rw [hfs]
  split_ifs <;> omega

/-- C2 witness: the amended theorem applied at the concrete environment
`sessionEnvA` (tests pass immediately, no timeout). -/
theorem C2_first_pass_amended_witness :
    (runHealingLoop sessionEnvA).status = HealingStatus.completed
    ∧ (runHealingLoop sessionEnvA).exitedInLoop = true
    ∧ (runHealingLoop sessionEnvA).exitAttempt = 1
    ∧ (runHealingLoop sessionEnvA).bugs = []
    ∧ (runHealingLoop sessionEnvA).attempts
        = [{ attempt := 1, passed := true, bugsFound := 0, bugsFixed := 0 }]
    ∧ (runHealingLoop sessionEnvA).prAttempted = true
    ∧ (runHealingLoop sessionEnvA).score
        = calculateScore [] true 1 (sessionEnvA.commitCountAt 1)
            (sessionEnvA.elapsedAt 1)
    ∧ (runHealingLoop sessionEnvA).score.finalScore
        = max 0 (min 100 (30
            + (if sessionEnvA.elapsedAt 1 < 300 then (10 : ℤ) else 0)
            - (if sessionEnvA.commitCountAt 1 > 20 then
                (sessionEnvA.commitCountAt 1 : ℤ) - 20 else 0)))
    ∧ (runHealingLoop sessionEnvA).score.finalScore ≤ 40 :=
  C2_first_pass_amended sessionEnvA rfl rfl

/-! ### C3: the final test run decides the terminal status -/

/-- The score of a final-verification outcome. -/
theorem finalVerification_score (env : OrchestratorEnv)
    (b : List HealingBug) (a : List HealingAttempt) :
    (finalVerification env b a).score
      = calculateScore b env.finalTestPassed MAX_ATTEMPTS
          (env.commitCountAt 0) (env.elapsedAt 0) := by
  simp only [finalVerification]
  split_ifs <;> rfl

/-- finalVerification on a passing final test. -/
theorem finalVerification_pass (env : OrchestratorEnv)
    (b : List HealingBug) (a : List HealingAttempt)
    (hft : env.finalTestPassed = true) :
    finalVerification env b a
      = { status := HealingStatus.completed, bugs := b, attempts := a,
          score := calculateScore b env.finalTestPassed MAX_ATTEMPTS
            (env.commitCountAt 0) (env.elapsedAt 0),
          prAttempted := true, exitedInLoop := false, exitAttempt := 0 } := by
  simp only [finalVerification]
  rw [if_pos hft]

/-- finalVerification on a failing final test with some bug fixed. -/
theorem finalVerification_fail_fixed (env : OrchestratorEnv)
    (b : List HealingBug) (a : List HealingAttempt)
    (hft : env.finalTestPassed = false)
    (hbf : 0 < (calculateScore b env.finalTestPassed MAX_ATTEMPTS
      (env.commitCountAt 0) (env.elapsedAt 0)).bugsFixed) :
    finalVerification env b a
      = { status := HealingStatus.partialSuccess, bugs := b, attempts := a,
          score := calculateScore b env.finalTestPassed MAX_ATTEMPTS
            (env.commitCountAt 0) (env.elapsedAt 0),
          prAttempted := true, exitedInLoop := false, exitAttempt := 0 } := by
  simp only [finalVerification]
  rw [if_neg (by simp [hft]), if_pos hbf]

/-- finalVerification on a failing final test with no bug fixed. -/
theorem finalVerification_fail_none (env : OrchestratorEnv)
    (b : List HealingBug) (a : List HealingAttempt)
    (hft : env.finalTestPassed = false)
    (hbf : (calculateScore b env.finalTestPassed MAX_ATTEMPTS
      (env.commitCountAt 0) (env.elapsedAt 0)).bugsFixed = 0) :
    finalVerification env b a
      = { status := HealingStatus.failed, bugs := b, attempts := a,
          score := calculateScore b env.finalTestPassed MAX_ATTEMPTS
            (env.commitCountAt 0) (env.elapsedAt 0),
          prAttempted := false, exitedInLoop := false, exitAttempt := 0 } := by
  simp only [finalVerification]
  rw [if_neg (by simp [hft]), if_neg (by simp [hbf])]

/-- C3: whenever the attempt loop exhausts its cap or breaks on timeout
(the run does not return from inside the loop), one final test run decides
the terminal status: pass ⇒ `completed` with a PR attempt; fail with at
least one fixed bug ⇒ `partial_success` with a PR attempt; fail with zero
fixed bugs ⇒ `failed` with no PR attempt. -/
theorem C3_final_test_decides_status (env : OrchestratorEnv)
    (h : (runHealingLoop env).exitedInLoop = false) :
    (env.finalTestPassed = true →
      (runHealingLoop env).status = HealingStatus.completed
      ∧ (runHealingLoop env).prAttempted = true)
    ∧ (env.finalTestPassed = false →
        0 < (runHealingLoop env).score.bugsFixed →
        (runHealingLoop env).status = HealingStatus.partialSuccess
        ∧ (runHealingLoop env).prAttempted = true)
    ∧ (env.finalTestPassed = false →
        (runHealingLoop env).score.bugsFixed = 0 →
        (runHealingLoop env).status = HealingStatus.failed
        ∧ (runHealingLoop env).prAttempted = false) := by
  rcases runAttempts_exit_or_final env MAX_ATTEMPTS 1 [] [] with hex | ⟨b, a, heq⟩
  · rw [show (runHealingLoop env).exitedInLoop
        = (runAttempts env MAX_ATTEMPTS 1 [] []).exitedInLoop from rfl,
      hex] at h
    cases h
  · have hrun : runHealingLoop env = finalVerification env b a := heq
    refine ⟨?_, ?_, ?_⟩
    · intro hft
      rw [hrun, finalVerification_pass env b a hft]
      exact ⟨rfl, rfl⟩
    · intro hft hbf
      rw [hrun] at hbf ⊢
      rw [finalVerification_score] at hbf
      rw [finalVerification_fail_fixed env b a hft hbf]
      exact ⟨rfl, rfl⟩
    · intro hft hbf
      rw [hrun] at hbf ⊢
      rw [finalVerification_score] at hbf
      rw [finalVerification_fail_none env b a hft hbf]
      exact ⟨rfl, rfl⟩

/-- C3 witness: the theorem applied at the concrete environment
`sessionEnvB` (immediate timeout, failing final test, no bug ever fixed). -/
theorem C3_final_test_decides_status_witness :
    (sessionEnvB.finalTestPassed = true →
      (runHealingLoop sessionEnvB).status = HealingStatus.completed
      ∧ (runHealingLoop sessionEnvB).prAttempted = true)
    ∧ (sessionEnvB.finalTestPassed = false →
        0 < (runHealingLoop sessionEnvB).score.bugsFixed →
        (runHealingLoop sessionEnvB).status = HealingStatus.partialSuccess
        ∧ (runHealingLoop sessionEnvB).prAttempted = true)
    ∧ (sessionEnvB.finalTestPassed = false →
        (runHealingLoop sessionEnvB).score.bugsFixed = 0 →
        (runHealingLoop sessionEnvB).status = HealingStatus.failed
        ∧ (runHealingLoop sessionEnvB).prAttempted = false) :=
  C3_final_test_decides_status sessionEnvB (by decide)

/-! ### C5: deduplication of the accumulated bug list -/

/-- C5: the session's accumulated bug list never contains two entries with
identical (filePath, line) — both through one scan-integration pass from
any deduplicated state and at the end of every modelled session run — and
a bug already marked fixed is not re-added or reopened by a later scan:
the fixed entry survives integration unchanged, it remains the only entry
at its location, and the actionable set of the scan contains no bug at its
location. -/
theorem C5_dedup_invariant (env : OrchestratorEnv)
    (scan acc : List HealingBug) (b : HealingBug)
    (hacc : NodupLoc acc) (hb : b ∈ acc) (hfx : b.fixed = true) :
    NodupLoc (integrateScan scan acc).1
    ∧ b ∈ (integrateScan scan acc).1
    ∧ (∀ x ∈ (integrateScan scan acc).1, locClash x b → x = b)
    ∧ (∀ x ∈ (integrateScan scan acc).2, ¬ locClash x b)
    ∧ NodupLoc (runHealingLoop env).bugs := by
  obtain ⟨hnd, ⟨added, heq, hadded⟩, hsnd⟩ := integrateScan_spec scan acc hacc
  refine ⟨hnd, ?_, ?_, ?_, ?_⟩
  · rw [heq]
    exact List.mem_append_left _ hb
  · intro x hx hclash
    rw [heq] at hx
    rcases List.mem_append.mp hx with hx | hx
    · exact nodupLoc_mem_unique acc hacc x b hx hb hclash
    · exact absurd hclash (hadded x hx b hb hfx)
  · intro x hx
    exact hsnd x hx b hb hfx
  · exact runAttempts_nodup env MAX_ATTEMPTS 1 [] [] List.Pairwise.nil

/-- C5 witness: the theorem applied at a concrete state — a session whose
list holds the fixed bug `bugFixedA` while the scanner re-reports its
location as `bugRescanA`, under the environment `sessionEnvC`. -/
theorem C5_dedup_invariant_witness :
    NodupLoc (integrateScan [bugRescanA] [bugFixedA]).1
    ∧ bugFixedA ∈ (integrateScan [bugRescanA] [bugFixedA]).1
    ∧ (∀ x ∈ (integrateScan [bugRescanA] [bugFixedA]).1,
        locClash x bugFixedA → x = bugFixedA)
    ∧ (∀ x ∈ (integrateScan [bugRescanA] [bugFixedA]).2,
        ¬ locClash x bugFixedA)
    ∧ NodupLoc (runHealingLoop sessionEnvC).bugs :=
  C5_dedup_invariant sessionEnvC [bugRescanA] [bugFixedA] bugFixedA
    (by decide) (by decide) (by decide)

end ProtocolZero
